import Mathlib

/-!
Shallow embedding of fdroidcl's `index.go` (package `fdroidcl`): the data
model, the current-package selection algorithm, the scalar codecs, the
description renderer `TextDesc`, and the sorting pass of `LoadIndexXml`,
together with theorems about them.

Conventions: Go `int` is modeled as `Int`; strings are modeled as `String`
for opaque fields and as `List Char` wherever character-level manipulation
matters (the renderer, the codecs).  Go slices become lists or arrays.
-/

namespace Fdroidcl

/-- Calendar date as decoded by `DateVal.FromString` (Go `time.Parse` with
layout `2006-01-02`); only the date triple is modeled, which is all the
codec reads and writes. -/
structure DateVal where
  year : Nat := 1
  month : Nat := 1
  day : Nat := 1
deriving DecidableEq

/-- Hash element (`HexHash` in index.go): an algorithm tag plus hex-decoded
bytes. -/
structure HexHash where
  hashType : String := ""
  data : List Nat := []
deriving DecidableEq

/-- Android package (`Apk` in index.go), with the fields of the source
structure.  `HexVal` fields are byte lists, `CommaList` fields string
lists. -/
structure Apk where
  vname : String := ""
  vcode : Int := 0
  size : Int := 0
  minSdk : Int := 0
  maxSdk : Int := 0
  abis : List String := []
  apkName : String := ""
  srcName : String := ""
  sig : List Nat := []
  added : DateVal := {}
  perms : List String := []
  feats : List String := []
  hash : HexHash := {}
deriving DecidableEq

instance : Inhabited Apk := ⟨{}⟩

/-- Android application (`App` in index.go).  `CurApk *Apk` becomes an
`Option Apk`, `none` for the nil pointer. -/
structure App where
  id : String := ""
  name : String := ""
  summary : String := ""
  desc : String := ""
  license : String := ""
  categs : List String := []
  website : String := ""
  source : String := ""
  tracker : String := ""
  changelog : String := ""
  donate : String := ""
  bitcoin : String := ""
  litecoin : String := ""
  dogecoin : String := ""
  flattrID : String := ""
  apks : List Apk := []
  cvName : String := ""
  cvCode : Int := 0
  curApk : Option Apk := none
deriving DecidableEq

instance : Inhabited App := ⟨{}⟩

/-- Repository metadata (the anonymous `Repo` struct of `Index`). -/
structure Repo where
  name : String := ""
  pubKey : String := ""
  timestamp : Int := 0
  url : String := ""
  version : Int := 0
  maxAge : Int := 0
  description : String := ""
deriving DecidableEq

/-- The decoded repository index (`Index` in index.go). -/
structure Index where
  repo : Repo := {}
  apps : List App := []
deriving DecidableEq

/-- Loop of `App.calcCurApk`: `CurApk` is set to each visited package in
turn and the walk breaks as soon as `app.CVCode >= apk.VCode`; if the walk
runs off the end, the last visited package remains. -/
def calcCurApkGo (cv : Int) : Apk → List Apk → Apk
  | apk, rest =>
    if cv ≥ apk.vcode then apk
    else
      match rest with
      | [] => apk
      | b :: r => calcCurApkGo cv b r

/-- `App.calcCurApk` as a function of the market version code and the
package list; `none` exactly when the list is empty (Go then leaves the
nil pointer in place). -/
def calcCurApk (cv : Int) (apks : List Apk) : Option Apk :=
  match apks with
  | [] => none
  | a :: rest => some (calcCurApkGo cv a rest)

/-- A package list sorted descending by version code (the invariant
`LoadIndexXml` establishes before calling `calcCurApk`). -/
def SortedDescVCode (l : List Apk) : Prop :=
  l.Pairwise fun a b => b.vcode ≤ a.vcode

/-- Concrete package with a given version code (other fields default). -/
def apkV (v : Int) : Apk := { vcode := v }

/-- `CommaList.FromString`, i.e. Go `strings.Split(s, ",")` at the character
level: splitting the empty string yields one empty element. -/
def splitComma : List Char → List (List Char)
  | [] => [[]]
  | c :: rest =>
    if c = ',' then [] :: splitComma rest
    else
      match splitComma rest with
      | [] => [[c]]
      | g :: gs => (c :: g) :: gs

/-- `CommaList.String`, i.e. Go `strings.Join(list, ",")`. -/
def joinComma : List (List Char) → List Char
  | [] => []
  | [x] => x
  | x :: xs => x ++ ',' :: joinComma xs

/-- Decimal digit decoding as in Go's `atoi`/`getnum` (a character between
`'0'` and `'9'` maps to its value), written as an explicit table. -/
def digitVal (c : Char) : Option Nat :=
  if c = '0' then some 0 else if c = '1' then some 1 else if c = '2' then some 2
  else if c = '3' then some 3 else if c = '4' then some 4 else if c = '5' then some 5
  else if c = '6' then some 6 else if c = '7' then some 7 else if c = '8' then some 8
  else if c = '9' then some 9 else none

/-- Decimal digit encoding (inverse table of `digitVal` on `0..9`). -/
def digitChar : Nat → Char
  | 0 => '0'
  | 1 => '1'
  | 2 => '2'
  | 3 => '3'
  | 4 => '4'
  | 5 => '5'
  | 6 => '6'
  | 7 => '7'
  | 8 => '8'
  | 9 => '9'
  | _ => '*'

/-- Go `time.isLeap`. -/
def isLeap (year : Nat) : Bool :=
  decide (year % 4 = 0 ∧ (¬year % 100 = 0 ∨ year % 400 = 0))

/-- Go `time.daysIn`: number of days of the given month, honouring leap
years (month out of `1..12` gives 0, which makes every day check fail just
as Go's range check does). -/
def daysIn (year month : Nat) : Nat :=
  if month = 2 ∧ isLeap year then 29
  else [31, 28, 31, 30, 31, 30, 31, 31, 30, 31, 30, 31].getD (month - 1) 0

/-- `DateVal.FromString` (Go `time.Parse` with layout `2006-01-02`): exactly
four digits, a dash, two digits, a dash, two digits, and nothing else; the
month must lie in `1..12` and the day must be in range for the month and
year, otherwise parsing fails (Go's format error becomes `none`). -/
def dateFromString (s : String) : Option DateVal :=
  match s.data with
  | [y1, y2, y3, y4, s1, m1, m2, s2, d1, d2] =>
    match digitVal y1, digitVal y2, digitVal y3, digitVal y4,
          digitVal m1, digitVal m2, digitVal d1, digitVal d2 with
    | some a, some b, some c, some d, some e, some f, some g, some h =>
      if s1 = '-' ∧ s2 = '-' then
        let y := ((a * 10 + b) * 10 + c) * 10 + d
        let mo := e * 10 + f
        let da := g * 10 + h
        if 1 ≤ mo ∧ mo ≤ 12 then
          if 1 ≤ da ∧ da ≤ daysIn y mo then some ⟨y, mo, da⟩ else none
        else none
      else none
    | _, _, _, _, _, _, _, _ => none
  | _ => none

/-- `DateVal.String` (Go `Format("2006-01-02")`) for dates with a year of at
most four digits: zero-padded year, month and day. -/
def dateToString (dv : DateVal) : String :=
  ⟨[digitChar (dv.year / 1000 % 10), digitChar (dv.year / 100 % 10),
    digitChar (dv.year / 10 % 10), digitChar (dv.year % 10), '-',
    digitChar (dv.month / 10 % 10), digitChar (dv.month % 10), '-',
    digitChar (dv.day / 10 % 10), digitChar (dv.day % 10)]⟩

/-- Valid calendar date denotable in the exact `YYYY-MM-DD` pattern. -/
def ValidDate (dv : DateVal) : Prop :=
  dv.year ≤ 9999 ∧ 1 ≤ dv.month ∧ dv.month ≤ 12 ∧
    1 ≤ dv.day ∧ dv.day ≤ daysIn dv.year dv.month

instance : DecidablePred ValidDate := fun dv => by
  unfold ValidDate
  infer_instance

/-- Decimal digits of a natural number (Go `fmt` `%d` on non-negative
values). -/
def natRepr (n : Nat) : List Char := Nat.toDigits 10 n

/-- Decimal digits of an integer (Go `fmt` `%d`). -/
def intRepr (i : Int) : List Char :=
  if i < 0 then '-' :: natRepr i.natAbs else natRepr i.natAbs

/-- XML token as delivered by Go's `encoding/xml` decoder to `TextDesc`:
start element (local name and attributes, each a local name / value pair),
end element, or character data.  Token kinds the renderer's `switch` does
not mention (comments, directives, processing instructions) produce no
output and are omitted from the model. -/
inductive Token where
  | startElement (name : String) (attrs : List (String × String))
  | endElement (name : String)
  | charData (text : List Char)
deriving DecidableEq

/-- Renderer state threaded across tokens by `App.TextDesc`: the
first-paragraph flag, the continuation-line prefix string, the number of
columns already used on the open output line, the recorded link addresses
in encounter order, and the pending-footnote flag (`linked`). -/
structure RSt where
  firstParagraph : Bool
  linePre : List Char
  colsUsed : Nat
  links : List String
  linked : Bool

/-- Initial renderer state of `App.TextDesc`. -/
def initSt : RSt := ⟨true, [], 0, [], false⟩

/-- The scan `for i, c := range left { if i >= limit { break };
if c == ' ' { last = i } }`: index of the last space strictly before
`limit`, defaulting to 0. -/
def lastSpaceGo (limit : Int) : List Char → Nat → Nat → Nat
  | [], _, last => last
  | c :: cs, i, last =>
    if (i : Int) ≥ limit then last
    else lastSpaceGo limit cs (i + 1) (if c = ' ' then i else last)

/-- Break-point search of the word-wrap loop. -/
def lastSpaceIdx (left : List Char) (limit : Int) : Nat :=
  lastSpaceGo limit left 0 0

/-- Word-wrap of one text run in `App.TextDesc` (the `for len(left) > limit`
loop followed by the final emit), returning the emitted characters and the
new `colsUsed`.  The fuel bounds the number of loop iterations;
`left.length + 1` always suffices, since every iteration drops at least one
character and with a non-negative limit the loop stops at the latest on the
empty rest (the renderer keeps `colsUsed + len(linePrefix) ≤ 80`, so the
limit never goes negative; on a negative limit and empty rest Go would
panic on the out-of-range re-slice `left[1:]`). -/
def wrapEmit (lp : List Char) : Nat → List Char → Int → Nat → Bool → List Char × Nat
  | 0, left, _, cols, firstLine =>
    ((if firstLine then [] else lp) ++ left, cols + left.length)
  | fuel + 1, left, limit, cols, firstLine =>
    if (left.length : Int) > limit then
      let last := lastSpaceIdx left limit
      let limit2 := if firstLine then limit + cols else limit
      let pre : List Char := if firstLine then [] else lp
      let (out, cols2) := wrapEmit lp fuel (left.drop (last + 1)) limit2 0 false
      (pre ++ left.take last ++ '\n' :: out, cols2)
    else ((if firstLine then [] else lp) ++ left, cols + left.length)

/-- One token step of `App.TextDesc` (the body of the `switch` in the main
loop): the characters written and the updated state. -/
def stepToken (st : RSt) (t : Token) : List Char × RSt :=
  match t with
  | .startElement n attrs =>
    if n = "p" then
      ((if st.firstParagraph then [] else ['\n']),
        { st with firstParagraph := false, linePre := [], colsUsed := 0 })
    else if n = "li" then
      (('\n' :: [' ', '*']), { st with linePre := [' ', ' ', ' '], colsUsed := 0 })
    else if n = "a" then
      match attrs.find? (fun pr => pr.1 == "href") with
      | some pr => ([], { st with links := st.links ++ [pr.2], linked := true })
      | none => ([], st)
    else ([], st)
  | .endElement n =>
    if n = "p" ∨ n = "ul" ∨ n = "ol" then (['\n'], st) else ([], st)
  | .charData text =>
    let left :=
      if st.linked then text ++ '[' :: intRepr ((st.links.length : Int) - 1) ++ [']']
      else text
    let limit : Int := 80 - st.linePre.length - st.colsUsed
    let (out, cols) := wrapEmit st.linePre (left.length + 1) left limit st.colsUsed true
    (out, { st with colsUsed := cols, linked := false })

/-- Footnote block of `App.TextDesc`: when links were recorded, a blank
line and then one `"[i] address"` line per link, `i` from 0 in recording
order. -/
def linkLines (links : List String) : List Char :=
  if links.length > 0 then
    '\n' :: (links.enum.map fun p => '[' :: natRepr p.1 ++ ']' :: ' ' :: p.2.data ++ ['\n']).flatten
  else []

/-- Main token loop of `App.TextDesc`.  The decoder stream is modeled as the
list of per-call read results of `decoder.Token()`; `none` stands for a
call that yields no token (`io.EOF`, a nil token, or any decode error), on
which the loop breaks. -/
def textDescLoop : List (Option Token) → RSt → List Char × RSt
  | [], st => ([], st)
  | none :: _, st => ([], st)
  | some t :: rest, st =>
    let (o, st2) := stepToken st t
    let (out, st3) := textDescLoop rest st2
    (o ++ out, st3)

/-- `App.TextDesc`: render the token stream, then append the footnote
block for the recorded links. -/
def textDesc (s : List (Option Token)) : List Char :=
  let (out, st) := textDescLoop s initSt
  out ++ linkLines st.links

/-- The tokens successfully read before the first failing `Token()` call. -/
def goodTokens (s : List (Option Token)) : List Token :=
  (s.takeWhile Option.isSome).reduceOption

/-- Token stream produced by `encoding/xml` for the markup
`"<p>Intro</p><ul><li>One</li><li>Two</li></ul>"`. -/
def introListTokens : List Token :=
  [.startElement "p" [], .charData ("Intro").data, .endElement "p",
   .startElement "ul" [], .startElement "li" [], .charData ("One").data,
   .endElement "li", .startElement "li" [], .charData ("Two").data,
   .endElement "li", .endElement "ul"]

/-- Token stream produced by `encoding/xml` for the markup
`"<p>See <a href=\"http://x\">here</a>.</p>"`. -/
def seeHereTokens : List Token :=
  [.startElement "p" [], .charData ("See ").data,
   .startElement "a" [("href", "http://x")], .charData ("here").data,
   .endElement "a", .charData (".").data, .endElement "p"]

/-- Go `data.Swap(i, j)` on an array-backed slice. -/
def swapA [Inhabited α] (arr : Array α) (i j : Nat) : Array α :=
  let x := arr.get! i
  let y := arr.get! j
  (arr.setD i y).setD j x

/-- Inner loop of Go `insertionSort`:
`for j := i; j > a && data.Less(j, j-1); j-- { data.Swap(j, j-1) }`. -/
def insSortInner [Inhabited α] (less : α → α → Bool) (a : Nat) : Nat → Array α → Array α
  | 0, arr => arr
  | j + 1, arr =>
    if a < j + 1 ∧ less (arr.get! (j + 1)) (arr.get! j) then
      insSortInner less a j (swapA arr (j + 1) j)
    else arr

/-- Outer loop of Go `insertionSort` (`for i := a + 1; i < b; i++`), fueled
by the iteration count `b - a`. -/
def insSortOuter [Inhabited α] (less : α → α → Bool) (a b : Nat) :
    Nat → Nat → Array α → Array α
  | 0, _, arr => arr
  | fuel + 1, i, arr =>
    if i < b then insSortOuter less a b fuel (i + 1) (insSortInner less a i arr)
    else arr

/-- Go `insertionSort(data, a, b)`. -/
def insertionSortGo [Inhabited α] (less : α → α → Bool) (a b : Nat) (arr : Array α) :
    Array α :=
  insSortOuter less a b (b - a) (a + 1) arr

/-- Go `siftDown(data, lo, hi, first)`: the loop on `root`, fueled (`hi` is
always enough fuel, as the root at least doubles every iteration). -/
def siftDownGo [Inhabited α] (less : α → α → Bool) (hi first : Nat) :
    Nat → Nat → Array α → Array α
  | 0, _, arr => arr
  | fuel + 1, root, arr =>
    let child := 2 * root + 1
    if child ≥ hi then arr
    else
      let child :=
        if child + 1 < hi ∧ less (arr.get! (first + child)) (arr.get! (first + child + 1)) then
          child + 1
        else child
      if ¬ less (arr.get! (first + root)) (arr.get! (first + child)) then arr
      else siftDownGo less hi first fuel child (swapA arr (first + root) (first + child))

/-- Heap-building phase of Go `heapSort`
(`for i := (hi - 1) / 2; i >= 0; i--`), with `i` counting down. -/
def heapBuild [Inhabited α] (less : α → α → Bool) (first hi : Nat) :
    Nat → Array α → Array α
  | 0, arr => siftDownGo less hi first hi 0 arr
  | i + 1, arr => heapBuild less first hi i (siftDownGo less hi first hi (i + 1) arr)

/-- Extraction phase of Go `heapSort` (`for i := hi - 1; i >= 0; i--
{ data.Swap(first, first+i); siftDown(data, lo, i, first) }`). -/
def heapExtract [Inhabited α] (less : α → α → Bool) (first : Nat) :
    Nat → Array α → Array α
  | 0, arr => siftDownGo less 0 first 0 0 (swapA arr first first)
  | i + 1, arr =>
    heapExtract less first i
      (siftDownGo less (i + 1) first (i + 1) 0 (swapA arr first (first + i + 1)))

/-- Go `heapSort(data, a, b)`. -/
def heapSortGo [Inhabited α] (less : α → α → Bool) (a b : Nat) (arr : Array α) : Array α :=
  heapExtract less a (b - a - 1) (heapBuild less a (b - a) ((b - a - 1) / 2) arr)

/-- Go `medianOfThree(data, m1, m0, m2)`: sorts the three elements so that
`data[m0] <= data[m1] <= data[m2]`, leaving the median in `data[m1]` (the
first argument). -/
def medianOfThree [Inhabited α] (less : α → α → Bool) (m1 m0 m2 : Nat) (arr : Array α) :
    Array α :=
  let arr := if less (arr.get! m1) (arr.get! m0) then swapA arr m1 m0 else arr
  if less (arr.get! m2) (arr.get! m1) then
    let arr := swapA arr m2 m1
    if less (arr.get! m1) (arr.get! m0) then swapA arr m1 m0 else arr
  else arr

/-- First scan of Go `doPivot`: `for ; a < c && data.Less(a, pivot); a++`. -/
def pivAdvA [Inhabited α] (less : α → α → Bool) (arr : Array α) (pivot c : Nat) :
    Nat → Nat → Nat
  | 0, a => a
  | fuel + 1, a =>
    if a < c ∧ less (arr.get! a) (arr.get! pivot) then pivAdvA less arr pivot c fuel (a + 1)
    else a

/-- Scan `for ; b < c && !data.Less(pivot, b); b++` of `doPivot`. -/
def pivAdvB [Inhabited α] (less : α → α → Bool) (arr : Array α) (pivot c : Nat) :
    Nat → Nat → Nat
  | 0, b => b
  | fuel + 1, b =>
    if b < c ∧ ¬ less (arr.get! pivot) (arr.get! b) then pivAdvB less arr pivot c fuel (b + 1)
    else b

/-- Scan `for ; b < c && data.Less(pivot, c-1); c--` of `doPivot`. -/
def pivRetC [Inhabited α] (less : α → α → Bool) (arr : Array α) (pivot b : Nat) :
    Nat → Nat → Nat
  | 0, c => c
  | fuel + 1, c =>
    if b < c ∧ less (arr.get! pivot) (arr.get! (c - 1)) then pivRetC less arr pivot b fuel (c - 1)
    else c

/-- Middle partition loop of `doPivot`: advance `b`, retreat `c`, swap
`b`/`c-1` until they meet. -/
def pivPart [Inhabited α] (less : α → α → Bool) (pivot scanFuel : Nat) :
    Nat → Nat → Nat → Array α → Nat × Nat × Array α
  | 0, b, c, arr => (b, c, arr)
  | fuel + 1, b, c, arr =>
    let b2 := pivAdvB less arr pivot c scanFuel b
    let c2 := pivRetC less arr pivot b2 scanFuel c
    if b2 ≥ c2 then (b2, c2, arr)
    else pivPart less pivot scanFuel fuel (b2 + 1) (c2 - 1) (swapA arr b2 (c2 - 1))

/-- Scan `for ; a < b && !data.Less(b-1, pivot); b--` of the protect loop. -/
def protRetB [Inhabited α] (less : α → α → Bool) (arr : Array α) (pivot a : Nat) :
    Nat → Nat → Nat
  | 0, b => b
  | fuel + 1, b =>
    if a < b ∧ ¬ less (arr.get! (b - 1)) (arr.get! pivot) then
      protRetB less arr pivot a fuel (b - 1)
    else b

/-- Scan `for ; a < b && data.Less(a, pivot); a++` of the protect loop. -/
def protAdvA [Inhabited α] (less : α → α → Bool) (arr : Array α) (pivot b : Nat) :
    Nat → Nat → Nat
  | 0, a => a
  | fuel + 1, a =>
    if a < b ∧ less (arr.get! a) (arr.get! pivot) then protAdvA less arr pivot b fuel (a + 1)
    else a

/-- Duplicate-protection loop of `doPivot`, returning the final `b`. -/
def pivProt [Inhabited α] (less : α → α → Bool) (pivot scanFuel : Nat) :
    Nat → Nat → Nat → Array α → Nat × Array α
  | 0, _, b, arr => (b, arr)
  | fuel + 1, a, b, arr =>
    let b2 := protRetB less arr pivot a scanFuel b
    let a2 := protAdvA less arr pivot b2 scanFuel a
    if a2 ≥ b2 then (b2, arr)
    else pivProt less pivot scanFuel fuel (a2 + 1) (b2 - 1) (swapA arr a2 (b2 - 1))

/-- Go `doPivot(data, lo, hi)` of the classic (pre-1.19) `sort.Sort`:
median-of-three pivot selection (Tukey ninther above 40 elements), the
partition scans, the duplicate-protection pass, and the final pivot
placement; returns `midlo`, `midhi` and the permuted array.  Every scan is
fueled with `hi`, an upper bound on its length. -/
def doPivotGo [Inhabited α] (less : α → α → Bool) (lo hi : Nat) (arr0 : Array α) :
    Nat × Nat × Array α :=
  let m := lo + (hi - lo) / 2
  let arr :=
    if hi - lo > 40 then
      let s := (hi - lo) / 8
      let arr := medianOfThree less lo (lo + s) (lo + 2 * s) arr0
      let arr := medianOfThree less m (m - s) (m + s) arr
      medianOfThree less (hi - 1) (hi - 1 - s) (hi - 1 - 2 * s) arr
    else arr0
  let arr := medianOfThree less lo m (hi - 1) arr
  let pivot := lo
  let a := pivAdvA less arr pivot (hi - 1) hi (lo + 1)
  let (b, c, arr) := pivPart less pivot hi hi a (hi - 1) arr
  let protect := decide (hi - c < 5)
  let (protect, b, c, arr) :=
    if ¬ protect ∧ hi - c < (hi - lo) / 4 then
      let (c2, arr2, dups) :=
        if ¬ less (arr.get! pivot) (arr.get! (hi - 1)) then
          (c + 1, swapA arr c (hi - 1), 1)
        else (c, arr, 0)
      let (b2, dups) :=
        if ¬ less (arr2.get! (b - 1)) (arr2.get! pivot) then (b - 1, dups + 1)
        else (b, dups)
      let (b3, arr3, dups) :=
        if ¬ less (arr2.get! m) (arr2.get! pivot) then
          (b2 - 1, swapA arr2 m (b2 - 1), dups + 1)
        else (b2, arr2, dups)
      (decide (dups > 1), b3, c2, arr3)
    else (protect, b, c, arr)
  let (b, arr) := if protect then pivProt less pivot hi hi a b arr else (b, arr)
  let arr := swapA arr pivot (b - 1)
  (b - 1, c, arr)

/-- The Shell-sort pass with gap 6 that Go `quickSort` runs on a short
range before the final insertion sort (`for i := a + 6; i < b; i++
{ if data.Less(i, i-6) { data.Swap(i, i-6) } }`), fueled by `b - a`. -/
def shellPass [Inhabited α] (less : α → α → Bool) (b : Nat) :
    Nat → Nat → Array α → Array α
  | 0, _, arr => arr
  | fuel + 1, i, arr =>
    if i < b then
      shellPass less b fuel (i + 1)
        (if less (arr.get! i) (arr.get! (i - 6)) then swapA arr i (i - 6) else arr)
    else arr

/-- Go `quickSort(data, a, b, maxDepth)`: the `for b-a > 12` loop, heapsort
fallback when the depth budget is exhausted, recursion into the smaller
half, and the Shell pass plus insertion sort for short ranges, with the
tail loop written as recursion and fueled by the recursion depth. -/
def quickSortGo [Inhabited α] (less : α → α → Bool) :
    Nat → Nat → Nat → Nat → Array α → Array α
  | 0, _, _, _, arr => arr
  | fuel + 1, a, b, maxDepth, arr =>
    if b - a > 12 then
      if maxDepth = 0 then heapSortGo less a b arr
      else
        let (mlo, mhi, arr) := doPivotGo less a b arr
        if mlo - a < b - mhi then
          let arr := quickSortGo less fuel a mlo (maxDepth - 1) arr
          quickSortGo less fuel mhi b (maxDepth - 1) arr
        else
          let arr := quickSortGo less fuel mhi b (maxDepth - 1) arr
          quickSortGo less fuel a mlo (maxDepth - 1) arr
    else if b - a > 1 then insertionSortGo less a b (shellPass less b (b - a) (a + 6) arr)
    else arr

/-- The `maxDepth` computation of Go `sort.Sort`
(`for i := n; i > 0; i >>= 1 { maxDepth++ }`), fueled by `n`, which always
allows enough halvings to reach 0. -/
def bitCountF : Nat → Nat → Nat
  | 0, _ => 0
  | fuel + 1, i => if i > 0 then bitCountF fuel (i / 2) + 1 else 0

/-- Go `sort.Sort` as implemented by the standard library before the 1.19
pdqsort rewrite (the algorithm of Go 1.6 through 1.18, contemporaneous with
this code's lifetime): quicksort with median-of-three pivots, Shell pass
and insertion sort on ranges of at most 12 elements, heapsort beyond the
depth limit `2 * ceil(lg(n+1))`.  `sort.Sort` is documented as not stable.
The top-level fuel bounds the recursion depth and never runs out. -/
def sortGo [Inhabited α] (less : α → α → Bool) (arr : Array α) : Array α :=
  let n := arr.size
  let maxDepth := 2 * bitCountF n n
  quickSortGo less (n + 2 * maxDepth + 8) 0 n maxDepth arr

/-- `apkList.Less`: `al[i].VCode > al[j].VCode` (descending by version
code). -/
def apkLess (x y : Apk) : Bool := decide (x.vcode > y.vcode)

/-- `appList.Less`: `al[i].ID < al[j].ID` (ascending by identifier). -/
def appLess (x y : App) : Bool := decide (x.id < y.id)

/-- `sort.Sort(apkList(apks))` on a package list. -/
def sortApks (l : List Apk) : List Apk := (sortGo apkLess l.toArray).toList

/-- `sort.Sort(appList(apps))` on an app list. -/
def sortApps (l : List App) : List App := (sortGo appLess l.toArray).toList

/-- Normalization performed by `LoadIndexXml` after a successful decode:
sort the apps ascending by identifier, then for each app sort its package
list descending by version code and compute `CurApk`. -/
def normalizeIndex (idx : Index) : Index :=
  { idx with
    apps := (sortApps idx.apps).map fun app =>
      let apks := sortApks app.apks
      { app with apks := apks, curApk := calcCurApk app.cvCode apks } }

/-- `LoadIndexXml`: the outcome of `xml.Decoder.Decode` (any structural
mismatch or scalar codec failure surfaces as `Except.error` carrying the
decoder's error) is propagated unchanged — `return nil, err` — and a
successful decode is normalized and returned whole. -/
def loadIndexXml (decoded : Except String Index) : Except String Index :=
  match decoded with
  | .error e => .error e
  | .ok idx => .ok (normalizeIndex idx)

/-- Package with a version code and a distinguishing file name. -/
def apkVN (v : Int) (nm : String) : Apk := { vcode := v, apkName := nm }

/-- Concrete one-app index used to exercise `loadIndexXml` on a success. -/
def oneAppIndex : Index :=
  { apps := [{ id := "app.a", apks := [apkV 30, apkV 50, apkV 40], cvCode := 40 }] }

/-- Thirteen packages in encounter order `p0..p12` with version codes
`[2,1,2,3,1,1,3,1,2,3,1,3,1]` — more than 12 elements, so `sort.Sort`
leaves pure insertion sort (which would be stable) and partitions. -/
def unstableApks : List Apk :=
  [apkVN 2 "p0", apkVN 1 "p1", apkVN 2 "p2", apkVN 3 "p3", apkVN 1 "p4",
   apkVN 1 "p5", apkVN 3 "p6", apkVN 1 "p7", apkVN 2 "p8", apkVN 3 "p9",
   apkVN 1 "p10", apkVN 3 "p11", apkVN 1 "p12"]

/-- One-app index holding the thirteen packages above. -/
def unstableIndex : Index := { apps := [{ id := "app.b", apks := unstableApks }] }

theorem getLast_vcode_min : ∀ (l : List Apk) (hne : l ≠ []), SortedDescVCode l →
    ∀ a ∈ l, (l.getLast hne).vcode ≤ a.vcode := by
  intro l
  induction l with
  | nil => intro h; exact absurd rfl h
  | cons a t ih =>
    intro _ hs x hx
    rw [SortedDescVCode, List.pairwise_cons] at hs
    cases t with
    | nil =>
      simp only [List.mem_singleton] at hx
      subst hx
      simp [List.getLast]
    | cons b r =>
      rw [List.getLast_cons (by simp)]
      rcases List.mem_cons.mp hx with h | h
      · subst h
        exact le_trans (ih (by simp) hs.2 _ (List.getLast_mem (by simp))) (hs.1 _ (List.getLast_mem (by simp)))
      · exact ih (by simp) hs.2 _ h

theorem calcCurApkGo_eq (cv : Int) :
    ∀ (rest : List Apk) (a : Apk),
      calcCurApkGo cv a rest =
        ((a :: rest).find? fun x => decide (cv ≥ x.vcode)).getD
          ((a :: rest).getLast (by simp)) := by
  intro rest
  induction rest with
  | nil =>
    intro a
    by_cases h : cv ≥ a.vcode <;>
      simp [calcCurApkGo, List.find?, h, List.getLast]
  | cons b r ih =>
    intro a
    by_cases h : cv ≥ a.vcode
    · simp [calcCurApkGo, List.find?, h]
    · rw [show calcCurApkGo cv a (b :: r) = calcCurApkGo cv b r by
        simp [calcCurApkGo, h]]
      have hf : (a :: b :: r).find? (fun x => decide (cv ≥ x.vcode)) =
          (b :: r).find? (fun x => decide (cv ≥ x.vcode)) := by
        simp [List.find?, h]
      have hl : (a :: b :: r).getLast (by simp) = (b :: r).getLast (by simp) :=
        List.getLast_cons (by simp)
      rw [hf, hl]
      exact ih b

/-- Claim C1: after load, for a non-empty package list sorted descending by
version code, `CurApk` is the first package visited (highest to lowest
version code) whose version code is at most the market version code
`CVCode`; when no such package exists it is the last-visited package, whose
version code is minimal among all packages; for an empty list `calcCurApk`
yields `none` by definition. -/
theorem calcCurApk_spec (cv : Int) (apks : List Apk) (hne : apks ≠ [])
    (hs : SortedDescVCode apks) :
    calcCurApk cv apks =
      some ((apks.find? fun x => decide (cv ≥ x.vcode)).getD (apks.getLast hne)) ∧
    ((apks.find? fun x => decide (cv ≥ x.vcode)) = none →
      ∀ a ∈ apks, (apks.getLast hne).vcode ≤ a.vcode) ∧
    calcCurApk cv [] = none := by
  cases apks with
  | nil => exact absurd rfl hne
  | cons a rest =>
    exact ⟨by simp [calcCurApk, calcCurApkGo_eq],
      fun _ => getLast_vcode_min _ _ hs, rfl⟩

/-- Claim C1 witness: packages with version codes `[50,40,30]` and market
code 40 give current version code 40; the same packages with market code 0
give current version code 30. -/
theorem calcCurApk_spec_witness :
    calcCurApk 40 [apkV 50, apkV 40, apkV 30] = some (apkV 40) ∧
    calcCurApk 0 [apkV 50, apkV 40, apkV 30] = some (apkV 30) := by
  have h1 := (calcCurApk_spec 40 [apkV 50, apkV 40, apkV 30] (by simp)
    (by unfold SortedDescVCode apkV; simp)).1
  have h2 := (calcCurApk_spec 0 [apkV 50, apkV 40, apkV 30] (by simp)
    (by unfold SortedDescVCode apkV; simp)).1
  refine ⟨h1.trans ?_, h2.trans ?_⟩ <;> decide

theorem splitComma_no_comma : ∀ (x : List Char), ',' ∉ x → splitComma x = [x] := by
  intro x
  induction x with
  | nil => intro _; rfl
  | cons c cs ih =>
    intro h
    have hc : ¬c = ',' := fun hh => h (by simp [hh])
    have h2 := ih fun hm => h (List.mem_cons_of_mem _ hm)
    simp [splitComma, hc, h2]

theorem splitComma_append : ∀ (x t : List Char), ',' ∉ x →
    splitComma (x ++ ',' :: t) = x :: splitComma t := by
  intro x
  induction x with
  | nil => intro t _; simp [splitComma]
  | cons c cs ih =>
    intro t h
    have hc : ¬c = ',' := fun hh => h (by simp [hh])
    have h2 := ih t fun hm => h (List.mem_cons_of_mem _ hm)
    simp [splitComma, hc, h2]

/-- Claim C9 counterexample: for the empty list (all of whose elements
vacuously contain no comma) the round trip fails: joining gives the empty
string, and splitting the empty string gives one empty element, not the
empty list. -/
theorem commaList_roundTrip_fails_empty :
    splitComma (joinComma ([] : List (List Char))) = [[]] ∧
    splitComma (joinComma ([] : List (List Char))) ≠ [] :=
  ⟨rfl, by decide⟩

/-- Claim C9 (amended): for every non-empty list of strings whose elements
contain no commas, the `CommaList` codec round-trips: splitting the joined
string returns the original list. -/
theorem commaList_roundTrip (l : List (List Char)) (hne : l ≠ [])
    (hc : ∀ x ∈ l, ',' ∉ x) :
    splitComma (joinComma l) = l := by
  induction l with
  | nil => exact absurd rfl hne
  | cons x xs ih =>
    cases xs with
    | nil => simpa [joinComma] using splitComma_no_comma x (hc x (by simp))
    | cons y ys =>
      have hj : joinComma (x :: y :: ys) = x ++ ',' :: joinComma (y :: ys) := rfl
      rw [hj, splitComma_append x _ (hc x (by simp)),
        ih (by simp) fun z hz => hc z (List.mem_cons_of_mem _ hz)]

/-- Claim C9 witness: the amended round trip at the concrete list
`["ab", "c"]`. -/
theorem commaList_roundTrip_witness :
    splitComma (joinComma [['a', 'b'], ['c']]) = [['a', 'b'], ['c']] :=
  commaList_roundTrip _ (by simp) (by decide)

theorem digitVal_sound (c : Char) (n : Nat) (h : digitVal c = some n) :
    digitChar n = c ∧ n < 10 := by
  unfold digitVal at h
  split_ifs at h <;> simp only [Option.some.injEq] at h <;>
    (subst h; subst_vars; exact ⟨rfl, by omega⟩)

theorem digitChar_val (n : Nat) (h : n < 10) :
    digitVal (digitChar n) = some n := by
  interval_cases n <;> rfl

theorem daysIn_le_31 (y m : Nat) : daysIn y m ≤ 31 := by
  unfold daysIn
  split
  · omega
  · by_cases h13 : 13 ≤ m
    · rw [List.getD_eq_default _ _ (by simp; omega)]
      omega
    · interval_cases m <;> simp

theorem dateRoundTrip (dv : DateVal) (h : ValidDate dv) :
    dateFromString (dateToString dv) = some dv := by
  obtain ⟨y, mo, da⟩ := dv
  obtain ⟨hy, hm1, hm2, hd1, hd2⟩ := h
  replace hy : y ≤ 9999 := hy
  replace hm1 : 1 ≤ mo := hm1
  replace hm2 : mo ≤ 12 := hm2
  replace hd1 : 1 ≤ da := hd1
  replace hd2 : da ≤ daysIn y mo := hd2
  have hda : da ≤ 31 := le_trans hd2 (daysIn_le_31 _ _)
  unfold dateToString dateFromString
  dsimp only
  rw [digitChar_val _ (by omega), digitChar_val _ (by omega),
    digitChar_val _ (by omega), digitChar_val _ (by omega),
    digitChar_val _ (by omega), digitChar_val _ (by omega),
    digitChar_val _ (by omega), digitChar_val _ (by omega)]
  have ey : ((y / 1000 % 10 * 10 + y / 100 % 10) * 10 + y / 10 % 10) * 10 + y % 10 = y := by
    omega
  have em : mo / 10 % 10 * 10 + mo % 10 = mo := by omega
  have ed : da / 10 % 10 * 10 + da % 10 = da := by omega
  simp only [ey, em, ed]
  rw [if_pos (by simp), if_pos ⟨hm1, hm2⟩, if_pos ⟨hd1, hd2⟩]

theorem dateSound (s : String) (dv : DateVal) (h : dateFromString s = some dv) :
    ValidDate dv ∧ dateToString dv = s := by
  obtain ⟨l⟩ := s
  unfold dateFromString at h
  split at h
  case _ =>
    rename_i y1 y2 y3 y4 s1 m1 m2 s2 d1 d2 hl
    have hl2 : l = [y1, y2, y3, y4, s1, m1, m2, s2, d1, d2] := hl
    subst hl2
    cases hq1 : digitVal y1 with
    | none => rw [hq1] at h; simp at h
    | some a =>
    cases hq2 : digitVal y2 with
    | none => rw [hq1, hq2] at h; simp at h
    | some b =>
    cases hq3 : digitVal y3 with
    | none => rw [hq1, hq2, hq3] at h; simp at h
    | some c =>
    cases hq4 : digitVal y4 with
    | none => rw [hq1, hq2, hq3, hq4] at h; simp at h
    | some d =>
    cases hq5 : digitVal m1 with
    | none => rw [hq1, hq2, hq3, hq4, hq5] at h; simp at h
    | some e =>
    cases hq6 : digitVal m2 with
    | none => rw [hq1, hq2, hq3, hq4, hq5, hq6] at h; simp at h
    | some f =>
    cases hq7 : digitVal d1 with
    | none => rw [hq1, hq2, hq3, hq4, hq5, hq6, hq7] at h; simp at h
    | some g =>
    cases hq8 : digitVal d2 with
    | none => rw [hq1, hq2, hq3, hq4, hq5, hq6, hq7, hq8] at h; simp at h
    | some i =>
    rw [hq1, hq2, hq3, hq4, hq5, hq6, hq7, hq8] at h
    replace h :
        (if s1 = '-' ∧ s2 = '-' then
          if 1 ≤ e * 10 + f ∧ e * 10 + f ≤ 12 then
            if 1 ≤ g * 10 + i ∧
                g * 10 + i ≤ daysIn (((a * 10 + b) * 10 + c) * 10 + d) (e * 10 + f) then
              some ⟨((a * 10 + b) * 10 + c) * 10 + d, e * 10 + f, g * 10 + i⟩
            else none
          else none
        else none) = some dv := h
    split_ifs at h with hsep hmo hdy
    · obtain ⟨hsa, hsb⟩ := hsep
      subst hsa
      subst hsb
      obtain ⟨ha1, ha2⟩ := digitVal_sound _ _ hq1
      obtain ⟨hb1, hb2⟩ := digitVal_sound _ _ hq2
      obtain ⟨hc1, hc2⟩ := digitVal_sound _ _ hq3
      obtain ⟨hd1, hd2⟩ := digitVal_sound _ _ hq4
      obtain ⟨he1, he2⟩ := digitVal_sound _ _ hq5
      obtain ⟨hf1, hf2⟩ := digitVal_sound _ _ hq6
      obtain ⟨hg1, hg2⟩ := digitVal_sound _ _ hq7
      obtain ⟨hi1, hi2⟩ := digitVal_sound _ _ hq8
      simp only [Option.some.injEq] at h
      subst h
      refine ⟨⟨by show ((a * 10 + b) * 10 + c) * 10 + d ≤ 9999; omega,
        hmo.1, hmo.2, hdy.1, hdy.2⟩, ?_⟩
      unfold dateToString
      dsimp only
      refine congrArg String.mk ?_
      rw [show (((a * 10 + b) * 10 + c) * 10 + d) / 1000 % 10 = a by omega,
        show (((a * 10 + b) * 10 + c) * 10 + d) / 100 % 10 = b by omega,
        show (((a * 10 + b) * 10 + c) * 10 + d) / 10 % 10 = c by omega,
        show (((a * 10 + b) * 10 + c) * 10 + d) % 10 = d by omega,
        show (e * 10 + f) / 10 % 10 = e by omega,
        show (e * 10 + f) % 10 = f by omega,
        show (g * 10 + i) / 10 % 10 = g by omega,
        show (g * 10 + i) % 10 = i by omega, ha1, hb1, hc1, hd1, he1, hf1, hg1, hi1]
  case _ => exact absurd h (by simp)

/-- Claim C8: `DateVal.FromString` succeeds exactly on the strings of the
exact `YYYY-MM-DD` form denoting a valid calendar date (equivalently, the
encodings of valid dates), it fails on every other string, and for every
valid date the encoder re-emits the pattern and the codec round-trips. -/
theorem dateVal_codec_strict :
    (∀ s : String, (dateFromString s).isSome ↔
      ∃ dv, ValidDate dv ∧ dateToString dv = s) ∧
    (∀ dv, ValidDate dv → dateFromString (dateToString dv) = some dv) := by
  refine ⟨fun s => ⟨fun hs => ?_, fun hex => ?_⟩, dateRoundTrip⟩
  · obtain ⟨dv, hdv⟩ := Option.isSome_iff_exists.mp hs
    obtain ⟨hval, henc⟩ := dateSound s dv hdv
    exact ⟨dv, hval, henc⟩
  · obtain ⟨dv, hval, henc⟩ := hex
    rw [← henc, dateRoundTrip dv hval]
    rfl

/-- Claim C8 witness: the codec accepts and round-trips the concrete date
`2015-06-07`. -/
theorem dateVal_codec_strict_witness :
    dateFromString (dateToString ⟨2015, 6, 7⟩) = some ⟨2015, 6, 7⟩ :=
  dateVal_codec_strict.2 ⟨2015, 6, 7⟩ (by decide)

theorem textDescLoop_good : ∀ (s : List (Option Token)) (st : RSt),
    textDescLoop s st = textDescLoop ((goodTokens s).map some) st := by
  intro s
  induction s with
  | nil => intro st; rfl
  | cons o rest ih =>
    intro st
    cases o with
    | none => rfl
    | some t =>
      show textDescLoop (some t :: rest) st =
        textDescLoop ((goodTokens (some t :: rest)).map some) st
      have hg : goodTokens (some t :: rest) = t :: goodTokens rest := by
        simp [goodTokens, List.takeWhile]
      rw [hg]
      simp only [List.map, textDescLoop]
      rw [← ih]

/-- Claim C4: the renderer is a total function of the decoder stream and
truncates silently: rendering any stream (including one whose tokenization
fails partway) equals rendering exactly the tokens successfully read before
the first failing read, so the body consists of what those tokens produced
and nothing after the error point. -/
theorem textDesc_truncates (s : List (Option Token)) :
    textDesc s = textDesc ((goodTokens s).map some) := by
  unfold textDesc
  rw [textDescLoop_good]

/-- Claim C10: a decode error suppresses only further body output, not the
end-of-document link section: for a stream failing right after the clean
tokens `ts`, the output is the body rendered from `ts` followed by the
complete footnote listing of all links recorded over `ts`. -/
theorem textDesc_links_survive (ts : List Token) (junk : List (Option Token)) :
    textDesc (ts.map some ++ none :: junk) =
      (textDescLoop (ts.map some) initSt).1 ++
        linkLines (textDescLoop (ts.map some) initSt).2.links := by
  have key : ∀ (l : List Token) (st : RSt),
      textDescLoop (l.map some ++ none :: junk) st = textDescLoop (l.map some) st := by
    intro l
    induction l with
    | nil => intro st; rfl
    | cons t rest ih =>
      intro st
      simp only [List.map, List.cons_append, textDescLoop, List.append_eq]
      rw [ih]
  unfold textDesc
  rw [key]

/-- Claim C5: word-wrap with no space inside the budget: a single text run
of 90 non-space characters (empty line prefix, zero columns used) makes the
break point default to index 0 on every overflowing iteration, so the
renderer emits an empty segment followed by a line break and drops the
run's first character as if it were a separator — never an 80/10 split —
leaving ten line breaks followed by the final 80 characters. -/
theorem textDesc_wrap_no_space_edge :
    textDesc [some (Token.charData (List.replicate 90 'a'))] =
      List.replicate 10 '\n' ++ List.replicate 80 'a' := by
  decide

/-- Claim C6 counterexample: the renderer's full output for the list markup
is the 19-character string `"Intro\n\n *One\n *Two\n"` (a single line break
from the `ul` exit), so the claimed 20-character substring with two
trailing line breaks after `"Two"` occurs nowhere in it. -/
theorem textDesc_list_claim_false :
    textDesc (introListTokens.map some) = ("Intro\n\n *One\n *Two\n").data ∧
    ¬ ("Intro\n\n *One\n *Two\n\n").data <:+: textDesc (introListTokens.map some) := by
  decide

/-- Claim C6 (amended): rendering
`"<p>Intro</p><ul><li>One</li><li>Two</li></ul>"` produces output
containing `"Intro\n\n *One\n *Two\n"` — each list item introduced by a
line break and the two characters `" *"`, with the paragraph's line break
and a single list-exit line break. -/
theorem textDesc_list_amended :
    ("Intro\n\n *One\n *Two\n").data <:+: textDesc (introListTokens.map some) := by
  decide

/-- Claim C7: rendering `"<p>See <a href=\"http://x\">here</a>.</p>"`
produces exactly `"See here[0].\n\n[0] http://x\n"`: the text run after the
anchor is suffixed with `[0]` (index `len(links) - 1`) and the end of
document emits a blank line and then the `"[0] http://x"` line. -/
theorem textDesc_link_footnote :
    textDesc (seeHereTokens.map some) = ("See here[0].\n\n[0] http://x\n").data := by
  decide

set_option maxRecDepth 100000 in
/-- Claim C2 evaluation at the failing input: after a successful load of
the one-app index carrying the thirteen packages, the app's package list
comes out sorted descending by version code but with equal version codes
out of their encounter order (`p6` and `p11` before `p3` among the
version-3 packages; the version-1 block as `p7, p5, p4, p10, p1, p12`):
`sort.Sort` is not stable, while the claim requires encounter order kept
on ties (the second conjunct is the stable descending order, which the
code does not produce). -/
theorem sortApks_not_stable :
    (normalizeIndex unstableIndex).apps.map
        (fun app => app.apks.map fun x => (x.vcode, x.apkName)) =
      [[(3, "p6"), (3, "p11"), (3, "p3"), (3, "p9"), (2, "p2"), (2, "p8"), (2, "p0"),
        (1, "p7"), (1, "p5"), (1, "p4"), (1, "p10"), (1, "p1"), (1, "p12")]] ∧
    (normalizeIndex unstableIndex).apps.map
        (fun app => app.apks.map fun x => (x.vcode, x.apkName)) ≠
      [[(3, "p3"), (3, "p6"), (3, "p9"), (3, "p11"), (2, "p0"), (2, "p2"), (2, "p8"),
        (1, "p1"), (1, "p4"), (1, "p5"), (1, "p7"), (1, "p10"), (1, "p12")]] := by
  constructor
  · decide
  · decide

/-- Claim C3: `LoadIndexXml` is all-or-nothing: a failing decode is
propagated as the error it produced and no index value is returned, while
a successful decode yields the complete normalized index (apps sorted by
identifier, every app's packages sorted descending by version code and its
`CurApk` computed) and no error. -/
theorem loadIndexXml_all_or_nothing (decoded : Except String Index) :
    (∀ e, decoded = .error e → loadIndexXml decoded = .error e) ∧
    (∀ idx, decoded = .ok idx → loadIndexXml decoded = .ok (normalizeIndex idx)) := by
  constructor
  · rintro e rfl
    rfl
  · rintro idx rfl
    rfl

/-- Claim C3 witness: a failing decode returns exactly its error and no
index; a successful one-app decode returns the whole normalized index. -/
theorem loadIndexXml_all_or_nothing_witness :
    loadIndexXml (.error "unexpected EOF") = .error "unexpected EOF" ∧
    loadIndexXml (.ok oneAppIndex) = .ok (normalizeIndex oneAppIndex) :=
  ⟨(loadIndexXml_all_or_nothing _).1 _ rfl, (loadIndexXml_all_or_nothing _).2 _ rfl⟩

end Fdroidcl
